import Mathlib

/-!
Verification of the FX ETL pipeline (`fx.py`).

The program is a single linear pipeline: `init_db` ensures a SQLite table
`fx_rates(date, base, symbol, rate)` with primary key `(date, symbol)` exists;
`fetch_rates` performs one HTTP GET, validates the JSON body; `save_rates`
maps the quotes mapping to rows and performs `INSERT OR IGNORE`; `main`
sequences the steps under one `try/except/finally`.

The shallow embedding below models:
  * Python `str.replace` (used to derive `symbol` from a pair key) over
    `List Char`, faithful to Python's left-to-right, non-overlapping,
    all-occurrences semantics, including the empty-pattern case;
  * the SQLite table as a list of rows in insertion order, with
    `INSERT OR IGNORE` keyed on `(date, symbol)` as a fold;
  * `fetch_rates` as a function of the credential and the network outcome,
    recording whether an outbound request happened;
  * `main` as a total function producing the printed lines and the
    terminal log flag, with the `try/except/finally` structure explicit.

Rates are modelled as `Rat` (the claims never depend on float rounding;
`float(rate)` on an already-numeric value is the identity on the value).
-/

namespace Fx

/-- One stored record of the `fx_rates` table: columns
`(date, base, symbol, rate)`. -/
structure Row where
  date : String
  base : String
  symbol : String
  rate : Rat
deriving DecidableEq, Repr

/-- Python `str.replace` worker for a non-empty pattern, with fuel.
Scans left to right; on a match consumes `old.length` characters and emits
`new`, otherwise moves one character. `fuel ≥ s.length` suffices since each
step consumes at least one character when `old ≠ []`. -/
def replaceAux (old new : List Char) : Nat → List Char → List Char
  | 0, s => s
  | _ + 1, [] => []
  | fuel + 1, c :: cs =>
    if old.isPrefixOf (c :: cs) then
      new ++ replaceAux old new fuel (cs.drop (old.length - 1))
    else
      c :: replaceAux old new fuel cs

/-- Python `s.replace(old, new)` on character lists: replaces every
non-overlapping occurrence of `old` left to right; an empty pattern matches
between every character (Python: `"ab".replace("", "X") = "XaXbX"`). -/
def pyReplace (s old new : List Char) : List Char :=
  if old = [] then new ++ s.flatMap (fun c => c :: new)
  else replaceAux old new s.length s

/-- Embedding of `pair.replace(base, "")` from `save_rates`: the program's
derivation of the quote symbol from a pair key. -/
def symbolOf (base pair : String) : String :=
  ⟨pyReplace pair.data base.data []⟩

/-- Whether `old` occurs as a contiguous sublist of `s` (an empty pattern
occurs everywhere). -/
def hasOccur (old : List Char) : List Char → Bool
  | [] => old.isEmpty
  | c :: cs => old.isPrefixOf (c :: cs) || hasOccur old cs

/-- Whether two rows collide on the primary key `(date, symbol)`. -/
def sameKey (r r' : Row) : Bool :=
  decide (r.date = r'.date ∧ r.symbol = r'.symbol)

/-- Whether inserting `r` into `db` violates the primary key. -/
def keyConflict (db : List Row) (r : Row) : Bool :=
  db.any (fun r' => sameKey r' r)

/-- SQLite `INSERT OR IGNORE` of one row: appended unless the primary key
`(date, symbol)` is already present, in which case the row is dropped. -/
def insertOrIgnore (db : List Row) (r : Row) : List Row :=
  if keyConflict db r then db else db ++ [r]

/-- `executemany` of `INSERT OR IGNORE`: insert the rows in order. -/
def insertMany (db : List Row) (rows : List Row) : List Row :=
  rows.foldl insertOrIgnore db

/-- The `rows` list built by `save_rates`: one row per quotes entry, in
iteration order, with `symbol = pair.replace(base, "")`. -/
def makeRows (base : String) (quotes : List (String × Rat)) (dateStr : String) :
    List Row :=
  quotes.map (fun q => ⟨dateStr, base, symbolOf base q.1, q.2⟩)

/-- Embedding of `save_rates(base, quotes, date_str)` acting on a database
state `db`: builds one row per quotes entry, inserts them with
`INSERT OR IGNORE`, and returns `len(rows)`. The quotes mapping is a Python
dict, modelled as an association list in iteration order. -/
def save_rates (db : List Row) (base : String) (quotes : List (String × Rat))
    (dateStr : String) : List Row × Nat :=
  let rows := makeRows base quotes dateStr
  (insertMany db rows, rows.length)

/-- First-occurrence deduplication by primary key: keeps each `(date,
symbol)` key's first row in iteration order and drops every later
collision. Used to state what `INSERT OR IGNORE` persists on a fresh
store. -/
def dedupByKey : List Row → List Row
  | [] => []
  | r :: rs => r :: dedupByKey (rs.filter (fun r' => !(sameKey r' r)))
termination_by l => l.length
decreasing_by
  simp_wf
  exact Nat.lt_succ_of_le (List.length_filter_le _ _)

/-- Schema of the `fx_rates` table as created by `init_db`. -/
structure FxTable where
  schemaCols : List String
  schemaPK : List String
  rows : List Row
deriving DecidableEq, Repr

/-- Column list of the `CREATE TABLE` statement in `init_db`. -/
def fxCols : List String := ["date", "base", "symbol", "rate"]

/-- Primary-key column list of the `CREATE TABLE` statement in `init_db`. -/
def fxPK : List String := ["date", "symbol"]

/-- Database state: `none` before the table exists. -/
abbrev DBState := Option FxTable

/-- Embedding of `init_db`: `CREATE TABLE IF NOT EXISTS` creates the table
with the fixed schema when absent and is a no-op (not an error) when the
table already exists. Totality models the absence of an error. -/
def init_db : DBState → DBState
  | none => some ⟨fxCols, fxPK, []⟩
  | some t => some t

/-- Parsed JSON body of an API response, as far as `fetch_rates` inspects
it: the optional `"source"` and `"quotes"` fields (`none` models a missing
key). -/
structure ApiResponse where
  source : Option String
  quotes : Option (List (String × Rat))
deriving DecidableEq, Repr

/-- The exceptions `fetch_rates` can raise: `RuntimeError` for a missing
credential, the `requests` exception from `raise_for_status` or transport,
and `ValueError` carrying the offending payload. -/
inductive FetchError where
  | configError : String → FetchError
  | transportError : FetchError
  | schemaError : ApiResponse → FetchError
deriving DecidableEq, Repr

/-- Result of one `fetch_rates` execution, together with whether an
outbound HTTP request was made on that path. -/
structure FetchOutcome where
  result : Except FetchError ApiResponse
  networkCalled : Bool

/-- Python truthiness test `not API_KEY` for `os.getenv` output: the key is
missing when the variable is unset or the empty string. -/
def keyMissing : Option String → Bool
  | none => true
  | some s => s == ""

/-- Embedding of `fetch_rates`, parameterised by the credential and by the
network outcome `net` (transport failure or a parsed 2xx body). Mirrors the
source order: credential check, request + `raise_for_status`, then the
`"quotes" not in data or "source" not in data` validation. -/
def fetch_rates (apiKey : Option String) (net : Except Unit ApiResponse) :
    FetchOutcome :=
  if keyMissing apiKey then
    { result := .error (.configError "Missing FX_API_KEY. Please check your .env file.")
      networkCalled := false }
  else
    match net with
    | .error _ => { result := .error .transportError, networkCalled := true }
    | .ok data =>
      if data.quotes.isNone || data.source.isNone then
        { result := .error (.schemaError data), networkCalled := true }
      else
        { result := .ok data, networkCalled := true }

/-- Exceptions that can reach the orchestrator's `except` clause. -/
inductive Exc where
  | storage : String → Exc
  | fetchExc : FetchError → Exc
  | keyError : Exc
deriving Repr

/-- Environment of one `main` run: the credential, the network outcome,
whether the storage layer raises in `init_db` or in `save_rates`, the
pre-existing database rows, and today's date string. -/
structure Env where
  apiKey : Option String
  net : Except Unit ApiResponse
  initExc : Option String
  saveExc : Option String
  db : List Row
  today : String

/-- The `try` block of `main`: `init_db`, `fetch_rates`,
`base = data.get("source", "EUR")`, `quotes = data["quotes"]`,
`save_rates`. Returns the new database state and the saved count, or the
first exception raised. -/
def mainBody (env : Env) : Except Exc (List Row × Nat) :=
  match env.initExc with
  | some e => .error (.storage e)
  | none =>
    match (fetch_rates env.apiKey env.net).result with
    | .error e => .error (.fetchExc e)
    | .ok data =>
      let base := data.source.getD "EUR"
      match data.quotes with
      | none => .error .keyError
      | some quotes =>
        match env.saveExc with
        | some e => .error (.storage e)
        | none => .ok (save_rates env.db base quotes env.today)

/-- Observable outcome of one `main` run: the lines printed to standard
output and whether the terminal `FX ETL FINISHED` log entry was emitted
(the `finally` clause). -/
structure MainResult where
  stdout : List String
  finishedLogged : Bool
deriving Repr

/-- Embedding of `main`: the `except Exception` clause catches every
exception from the body and prints the failure line; the success path
prints the success line; the `finally` clause always runs. `main` is a
total function: no exception escapes it. -/
def main (env : Env) : MainResult :=
  match mainBody env with
  | .ok _ => { stdout := ["FX ETL completed successfully"], finishedLogged := true }
  | .error _ => { stdout := ["FX ETL failed — check logs"], finishedLogged := true }

/-- If the pattern never occurs in `s`, replacement leaves `s` unchanged,
whatever the fuel. -/
theorem replaceAux_of_not_occur (old new : List Char) (_hold : old ≠ []) :
    ∀ (fuel : Nat) (s : List Char), hasOccur old s = false →
      replaceAux old new fuel s = s := by
  intro fuel
  induction fuel with
  | zero => intro s _; rfl
  | succ n ih =>
    intro s hs
    cases s with
    | nil => rfl
    | cons c cs =>
      simp only [hasOccur, Bool.or_eq_false_iff] at hs
      simp only [replaceAux, hs.1, Bool.false_eq_true, if_false, ih cs hs.2]

/-- Replacing a non-empty pattern that occurs exactly once, as a prefix,
removes that prefix (and emits `new` in its place). -/
theorem replaceAux_append_of_not_occur (old new rest : List Char)
    (hold : old ≠ []) (hrest : hasOccur old rest = false) (fuel : Nat) :
    replaceAux old new (fuel + 1) (old ++ rest) = new ++ rest := by
  cases old with
  | nil => exact absurd rfl hold
  | cons a old' =>
    have hpre : (a :: old').isPrefixOf (a :: (old' ++ rest)) = true := by
      rw [ List.isPrefixOf_iff_prefix]
      exact List.prefix_append (a :: old') rest
    simp only [List.cons_append, replaceAux, List.append_eq]
    rw [if_pos hpre]
    have hdrop : (old' ++ rest).drop ((a :: old').length - 1) = rest := by
      simp only [List.length_cons, Nat.add_sub_cancel]
      exact List.drop_left old' rest
    rw [hdrop, replaceAux_of_not_occur (a :: old') new hold fuel rest hrest]

/-- Prefix-removal correctness of the symbol derivation, under the side
condition that the base does not occur again after the prefix. -/
theorem symbolOf_append (base sym : String) (hbase : base ≠ "")
    (hocc : hasOccur base.data sym.data = false) :
    symbolOf base (base ++ sym) = sym := by
  have hdata : base.data ≠ [] := by
    intro h
    exact hbase (show base = "" from String.ext h)
  apply String.ext
  show pyReplace (base ++ sym).data base.data [] = sym.data
  rw [pyReplace, if_neg hdata, String.data_append]
  cases hb : base.data with
  | nil => exact absurd hb hdata
  | cons a old' =>
    calc replaceAux (a :: old') [] ((a :: old') ++ sym.data).length ((a :: old') ++ sym.data)
        = replaceAux (a :: old') [] ((old' ++ sym.data).length + 1) ((a :: old') ++ sym.data) := by
          simp
      _ = [] ++ sym.data :=
          replaceAux_append_of_not_occur (a :: old') [] sym.data
            (List.cons_ne_nil a old') (hb ▸ hocc) ((old' ++ sym.data).length)
      _ = sym.data := rfl

/-- C1 (amended). `save_rates` builds exactly one row per quotes entry, and
whenever a pair key has the form `base ++ sym` with `base` non-empty and not
occurring again inside `sym`, the derived symbol is exactly the pair key
with the base prefix removed, so `base ++ symbol = pair`. (As literally
stated over all pair keys the claim fails, since the code removes every
occurrence of `base`, not only a leading one: see the counterexample.) -/
theorem save_rates_one_row_per_key_amended
    (base : String) (quotes : List (String × Rat)) (dateStr : String) :
    (makeRows base quotes dateStr).length = quotes.length ∧
    (∀ sym : String, base ≠ "" → hasOccur base.data sym.data = false →
      symbolOf base (base ++ sym) = sym ∧
      base ++ symbolOf base (base ++ sym) = base ++ sym) := by
  constructor
  · simp [makeRows]
  · intro sym hbase hocc
    have h := symbolOf_append base sym hbase hocc
    exact ⟨h, by rw [h]⟩

/-- C1 (counterexample). At base `"EUR"` with the single pair key
`"USDEUR"`, `save_rates` derives the symbol `"USD"` (removing `"EUR"` from
the middle of the key), and `"EUR" ++ "USD" ≠ "USDEUR"`: the claimed
identity `base + symbol == pair_key` fails for this pair key. -/
theorem save_rates_prefix_claim_counterexample :
    makeRows "EUR" [("USDEUR", (1 : Rat))] "2025-09-01" =
      [⟨"2025-09-01", "EUR", "USD", (1 : Rat)⟩] ∧
    ¬ ("EUR" ++ symbolOf "EUR" "USDEUR" = "USDEUR") := by
  constructor
  · rfl
  · decide

/-- C1 (witness for the amended theorem) at base `"EUR"`, pair
`"EURUSD" = "EUR" ++ "USD"`. -/
theorem save_rates_one_row_per_key_amended_witness :
    (makeRows "EUR" [("EURUSD", (1 : Rat))] "2025-09-01").length = 1 ∧
    symbolOf "EUR" ("EUR" ++ "USD") = "USD" ∧
    "EUR" ++ symbolOf "EUR" ("EUR" ++ "USD") = "EUR" ++ "USD" := by
  have h := save_rates_one_row_per_key_amended "EUR" [("EURUSD", (1 : Rat))] "2025-09-01"
  have h2 := h.2 "USD" (by decide) (by decide)
  exact ⟨h.1, h2.1, h2.2⟩

/-- C3. For every outcome of the run — success or any exception raised by
the initializer, fetcher, or persister — `main` is total (never re-raises),
always emits the terminal FINISHED log entry, and prints exactly one of the
two fixed lines to standard output. -/
theorem main_catches_all_and_finishes (env : Env) :
    (main env).finishedLogged = true ∧
    (main env).stdout.length = 1 ∧
    ((main env).stdout = ["FX ETL completed successfully"] ∨
      (main env).stdout = ["FX ETL failed — check logs"]) := by
  cases h : mainBody env with
  | ok v => simp [main, h]
  | error e => simp [main, h]

/-- C4. Given an HTTP-successful response body (and a present credential,
so execution reaches the parsing step), `fetch_rates` fails with a
`ValueError` carrying the raw payload exactly when the `"quotes"` field or
the `"source"` field is missing, and returns the parsed data containing
both fields when both are present. -/
theorem fetch_rates_schema_check (apiKey : Option String) (data : ApiResponse)
    (hkey : keyMissing apiKey = false) :
    ((fetch_rates apiKey (.ok data)).result = .error (.schemaError data) ↔
      (data.quotes = none ∨ data.source = none)) ∧
    ((data.quotes ≠ none ∧ data.source ≠ none) →
      (fetch_rates apiKey (.ok data)).result = .ok data) := by
  cases hq : data.quotes <;> cases hsrc : data.source <;>
    simp [fetch_rates, hkey, hq, hsrc, Option.isNone]

/-- C4 (witness): with a present credential and a body missing both fields,
`fetch_rates` reports the schema failure carrying the payload. -/
theorem fetch_rates_schema_check_witness :
    keyMissing (some "k") = false ∧
    ((fetch_rates (some "k") (.ok ⟨none, none⟩)).result =
        .error (.schemaError ⟨none, none⟩) ↔
      ((⟨none, none⟩ : ApiResponse).quotes = none ∨
        (⟨none, none⟩ : ApiResponse).source = none)) :=
  ⟨rfl, (fetch_rates_schema_check (some "k") ⟨none, none⟩ rfl).1⟩

/-- C5. A missing or empty credential makes `fetch_rates` fail with the
`RuntimeError` before any network call: `networkCalled` is `false` on that
path, whatever the network would have answered. -/
theorem fetch_rates_no_network_without_key (apiKey : Option String)
    (net : Except Unit ApiResponse) (hkey : keyMissing apiKey = true) :
    (fetch_rates apiKey net).networkCalled = false ∧
    (fetch_rates apiKey net).result =
      .error (.configError "Missing FX_API_KEY. Please check your .env file.") := by
  constructor <;> simp [fetch_rates, hkey]

/-- C5 (witness): with the credential unset, no network call occurs even
when the network would have succeeded. -/
theorem fetch_rates_no_network_without_key_witness :
    keyMissing none = true ∧
    (fetch_rates none (.ok ⟨some "EUR", some []⟩)).networkCalled = false :=
  ⟨rfl, (fetch_rates_no_network_without_key none (.ok ⟨some "EUR", some []⟩) rfl).1⟩

/-- C9. An empty quotes mapping is a successful no-op: zero rows are built,
the stored state is unchanged, and the returned count is 0. -/
theorem save_rates_empty_quotes (db : List Row) (base dateStr : String) :
    save_rates db base [] dateStr = (db, 0) :=
  rfl

/-- Key collision is symmetric. -/
theorem sameKey_comm (r r' : Row) : sameKey r r' = sameKey r' r := by
  simp [sameKey, eq_comm, and_comm]

/-- A row always collides with itself. -/
theorem sameKey_self (r : Row) : sameKey r r = true := by
  simp [sameKey]

/-- After inserting `r`, the key of `r` is present. -/
theorem keyConflict_insertOrIgnore_self (db : List Row) (r : Row) :
    keyConflict (insertOrIgnore db r) r = true := by
  unfold insertOrIgnore
  cases h : keyConflict db r with
  | true => simpa using h
  | false =>
    simp only [Bool.false_eq_true, if_false]
    simp [keyConflict, List.any_append, sameKey_self]

/-- Inserting any row preserves key presence. -/
theorem keyConflict_insertOrIgnore_mono (db : List Row) (r r' : Row)
    (h : keyConflict db r = true) :
    keyConflict (insertOrIgnore db r') r = true := by
  unfold insertOrIgnore
  cases keyConflict db r' with
  | true => simpa using h
  | false =>
    simp only [Bool.false_eq_true, if_false]
    simp [keyConflict, List.any_append] at h ⊢
    exact Or.inl h

/-- Batch insertion preserves key presence. -/
theorem keyConflict_insertMany_mono (rows : List Row) :
    ∀ (db : List Row) (r : Row), keyConflict db r = true →
      keyConflict (insertMany db rows) r = true := by
  induction rows with
  | nil => intro db r h; exact h
  | cons a rows ih =>
    intro db r h
    exact ih (insertOrIgnore db a) r (keyConflict_insertOrIgnore_mono db r a h)

/-- Every inserted row's key is present after the batch. -/
theorem keyConflict_insertMany_of_mem (rows : List Row) :
    ∀ (db : List Row) (r : Row), r ∈ rows →
      keyConflict (insertMany db rows) r = true := by
  induction rows with
  | nil => intro db r h; cases h
  | cons a rows ih =>
    intro db r h
    cases h with
    | head =>
      exact keyConflict_insertMany_mono rows (insertOrIgnore db a) a
        (keyConflict_insertOrIgnore_self db a)
    | tail _ hmem => exact ih (insertOrIgnore db a) r hmem

/-- A batch whose keys are all already present is a no-op. -/
theorem insertMany_of_all_conflict (rows : List Row) :
    ∀ (db : List Row), (∀ r ∈ rows, keyConflict db r = true) →
      insertMany db rows = db := by
  induction rows with
  | nil => intro db _; rfl
  | cons a rows ih =>
    intro db h
    have ha : insertOrIgnore db a = db := by
      unfold insertOrIgnore
      rw [if_pos (h a (List.mem_cons_self a rows))]
    show insertMany (insertOrIgnore db a) rows = db
    rw [ha]
    exact ih db (fun r hr => h r (List.mem_cons_of_mem a hr))

/-- C2. `save_rates` is idempotent on the stored state: repeating a call
with identical `(base, quotes, date)` leaves the stored rows (hence the
stored row count) unchanged after the second run — every duplicate is
silently dropped by the `(date, symbol)` conflict rule. -/
theorem save_rates_idempotent (db : List Row) (base : String)
    (quotes : List (String × Rat)) (dateStr : String) :
    (save_rates (save_rates db base quotes dateStr).1 base quotes dateStr).1 =
      (save_rates db base quotes dateStr).1 := by
  show insertMany (insertMany db (makeRows base quotes dateStr))
      (makeRows base quotes dateStr) = insertMany db (makeRows base quotes dateStr)
  exact insertMany_of_all_conflict _ _
    (fun r hr => keyConflict_insertMany_of_mem _ db r hr)

/-- C6. `save_rates` returns the number of rows attempted — the entry count
of the quotes mapping — and this can differ from the number of rows
actually persisted when duplicates are skipped, as the concrete run in the
second conjunct shows (two entries attempted, one row persisted). -/
theorem save_rates_returns_attempted_count :
    (∀ (db : List Row) (base : String) (quotes : List (String × Rat))
      (dateStr : String),
      (save_rates db base quotes dateStr).2 = quotes.length) ∧
    ((save_rates [] "EUR" [("EURUSD", (6 : Rat)/5), ("USDEUR", (2 : Rat))]
        "2025-09-01").2 = 2 ∧
      (save_rates [] "EUR" [("EURUSD", (6 : Rat)/5), ("USDEUR", (2 : Rat))]
        "2025-09-01").1.length = 1) := by
  refine ⟨fun db base quotes dateStr => ?_, by decide, by decide⟩
  show (makeRows base quotes dateStr).length = quotes.length
  simp [makeRows]

/-- The database only grows, by appending at the end. -/
theorem prefix_insertMany (rows : List Row) :
    ∀ db : List Row, db <+: insertMany db rows := by
  induction rows with
  | nil => intro db; exact List.prefix_refl db
  | cons a rows ih =>
    intro db
    refine List.IsPrefix.trans ?_ (ih (insertOrIgnore db a))
    unfold insertOrIgnore
    cases keyConflict db a with
    | true => simp
    | false => simp

/-- Any row present after a batch either was already present or had a key
fresh with respect to the starting state. -/
theorem mem_insertMany_cases (rows : List Row) :
    ∀ (db : List Row) (r' : Row), r' ∈ insertMany db rows →
      r' ∈ db ∨ keyConflict db r' = false := by
  induction rows with
  | nil => intro db r' h; exact Or.inl h
  | cons a rows ih =>
    intro db r' h
    cases ih (insertOrIgnore db a) r' h with
    | inl hmem =>
      unfold insertOrIgnore at hmem
      cases hc : keyConflict db a with
      | true => rw [hc] at hmem; simp at hmem; exact Or.inl hmem
      | false =>
        rw [hc] at hmem
        simp only [Bool.false_eq_true, if_false, List.mem_append,
          List.mem_singleton] at hmem
        cases hmem with
        | inl hdb => exact Or.inl hdb
        | inr heq => subst heq; exact Or.inr hc
    | inr hfresh =>
      right
      by_contra hconf
      rw [Bool.not_eq_false] at hconf
      rw [keyConflict_insertOrIgnore_mono db r' a hconf] at hfresh
      cases hfresh

/-- C7. Stored rows are never updated or deleted: the pre-existing state is
a prefix of the state after any `save_rates` call (each old row keeps its
position, `base`, and `rate`), and any row in the new state that collides
on `(date, symbol)` with a pre-existing row is that pre-existing row itself
— a conflicting incoming row is silently dropped, never overwriting. -/
theorem save_rates_never_overwrites (db : List Row) (base : String)
    (quotes : List (String × Rat)) (dateStr : String) :
    db <+: (save_rates db base quotes dateStr).1 ∧
    (∀ r ∈ db, ∀ r' ∈ (save_rates db base quotes dateStr).1,
      sameKey r' r = true → r' ∈ db) := by
  constructor
  · exact prefix_insertMany (makeRows base quotes dateStr) db
  · intro r hr r' hr' hkey
    cases mem_insertMany_cases (makeRows base quotes dateStr) db r' hr' with
    | inl h => exact h
    | inr hfresh =>
      exfalso
      have : keyConflict db r' = true := by
        simp only [keyConflict, List.any_eq_true]
        exact ⟨r, hr, by rw [sameKey_comm]; exact hkey⟩
      rw [this] at hfresh
      cases hfresh

/-- C7 (witness): with one stored USD row for 2025-09-01, a call offering a
conflicting EURUSD quote leaves the stored row in place; the theorem is
applied at that input with each hypothesis discharged by computation. -/
theorem save_rates_never_overwrites_witness :
    (⟨"2025-09-01", "EUR", "USD", (1 : Rat)⟩ : Row) ∈
      ([⟨"2025-09-01", "EUR", "USD", (1 : Rat)⟩] : List Row) :=
  (save_rates_never_overwrites [⟨"2025-09-01", "EUR", "USD", (1 : Rat)⟩] "EUR"
      [("EURUSD", (6 : Rat)/5)] "2025-09-01").2
    ⟨"2025-09-01", "EUR", "USD", (1 : Rat)⟩ (by decide)
    ⟨"2025-09-01", "EUR", "USD", (1 : Rat)⟩ (by decide) (by decide)

/-- Applying `init_db` twice from any state equals applying it once. -/
theorem init_db_idem_point (s : DBState) : init_db (init_db s) = init_db s := by
  cases s <;> rfl

/-- C8. `init_db` is idempotent and safe to repeat: from any state whose
table (if present) carries the `fx_rates` schema, any positive number of
calls succeeds (the function is total — `CREATE TABLE IF NOT EXISTS` raises
nothing when the table exists) and leaves a table with columns
`(date, base, symbol, rate)`, primary key `(date, symbol)`, and the
pre-existing rows unchanged (empty if the table was just created). -/
theorem init_db_idempotent (s : DBState) (n : Nat)
    (hs : ∀ t, s = some t → t.schemaCols = fxCols ∧ t.schemaPK = fxPK) :
    ∃ t', init_db^[n + 1] s = some t' ∧ t'.schemaCols = fxCols ∧
      t'.schemaPK = fxPK ∧ (∀ t, s = some t → t'.rows = t.rows) ∧
      (s = none → t'.rows = []) := by
  have hiter : init_db^[n + 1] s = init_db s := by
    rw [Function.iterate_succ_apply]
    exact Function.iterate_fixed (init_db_idem_point s) n
  rw [hiter]
  cases s with
  | none =>
    refine ⟨⟨fxCols, fxPK, []⟩, rfl, rfl, rfl, ?_, ?_⟩
    · intro t h; cases h
    · intro _; rfl
  | some t =>
    obtain ⟨h1, h2⟩ := hs t rfl
    refine ⟨t, rfl, h1, h2, ?_, ?_⟩
    · intro t' h; cases h; rfl
    · intro h; cases h

/-- C8 (witness): two calls starting from no table yield the fresh table
with the `fx_rates` schema and no rows. -/
theorem init_db_idempotent_witness :
    ∃ t', init_db^[2] (none : DBState) = some t' ∧ t'.schemaCols = fxCols ∧
      t'.schemaPK = fxPK ∧ (∀ t, (none : DBState) = some t → t'.rows = t.rows) ∧
      ((none : DBState) = none → t'.rows = []) :=
  init_db_idempotent none 1 (by intro t h; cases h)

/-- Closed form of batch insertion: the old rows followed by the
first-occurrence deduplication of those new rows whose keys are fresh. -/
theorem insertMany_eq_append_dedup (rows : List Row) :
    ∀ db : List Row, insertMany db rows =
      db ++ dedupByKey (rows.filter (fun r => !(keyConflict db r))) := by
  induction rows with
  | nil => intro db; simp [insertMany, dedupByKey]
  | cons a rows ih =>
    intro db
    show insertMany (insertOrIgnore db a) rows = _
    cases hc : keyConflict db a with
    | true =>
      have ha : insertOrIgnore db a = db := by
        unfold insertOrIgnore; rw [if_pos hc]
      rw [ha, ih db]
      congr 1
      rw [List.filter_cons]
      simp [hc]
    | false =>
      have ha : insertOrIgnore db a = db ++ [a] := by
        unfold insertOrIgnore; rw [if_neg (by simp [hc])]
      rw [ha, ih (db ++ [a]), List.append_assoc]
      congr 1
      rw [List.filter_cons]
      simp only [hc, Bool.not_false, if_true]
      rw [dedupByKey]
      simp only [List.singleton_append, List.cons.injEq, true_and]
      rw [List.filter_filter]
      apply congrArg
      apply List.filter_congr
      intro r _
      rw [sameKey_comm r a]
      simp [keyConflict, List.any_append, Bool.not_or, Bool.and_comm]

/-- On a fresh store the batch persists exactly the first row of each key. -/
theorem insertMany_nil_eq_dedup (rows : List Row) :
    insertMany [] rows = dedupByKey rows := by
  have h := insertMany_eq_append_dedup rows []
  simpa [keyConflict] using h

/-- Deduplication never lengthens a list. -/
theorem dedupByKey_length_le (rows : List Row) :
    (dedupByKey rows).length ≤ rows.length := by
  induction rows using dedupByKey.induct with
  | case1 => simp [dedupByKey]
  | case2 r rs ih =>
    rw [dedupByKey]
    simp only [List.length_cons]
    exact Nat.succ_le_succ (le_trans ih (List.length_filter_le _ _))

/-- C10. On a fresh store, `save_rates` persists exactly the first row of
each derived `(date, symbol)` key in iteration order, silently dropping
later collisions, while still returning the full entry count; in
particular, when the first two pair keys derive the same symbol the number
of rows persisted is strictly below the returned count. -/
theorem save_rates_first_row_wins (base dateStr : String)
    (quotes : List (String × Rat)) :
    (save_rates [] base quotes dateStr).1 =
      dedupByKey (makeRows base quotes dateStr) ∧
    (save_rates [] base quotes dateStr).2 = quotes.length ∧
    (∀ (p1 p2 : String) (r1 r2 : Rat) (rest : List (String × Rat)),
      quotes = (p1, r1) :: (p2, r2) :: rest →
      symbolOf base p1 = symbolOf base p2 →
      (save_rates [] base quotes dateStr).1.length < quotes.length) := by
  refine ⟨insertMany_nil_eq_dedup _, by simp [save_rates, makeRows], ?_⟩
  intro p1 p2 r1 r2 rest hq hsym
  subst hq
  show (insertMany [] (makeRows base ((p1, r1) :: (p2, r2) :: rest) dateStr)).length < _
  rw [insertMany_nil_eq_dedup]
  simp only [makeRows, List.map_cons]
  rw [dedupByKey, List.filter_cons]
  have hkey : sameKey ⟨dateStr, base, symbolOf base p2, r2⟩
      ⟨dateStr, base, symbolOf base p1, r1⟩ = true := by
    simp [sameKey, hsym]
  simp only [hkey, Bool.not_true, Bool.false_eq_true, if_false, List.length_cons]
  have h1 := dedupByKey_length_le
    ((rest.map (fun q => (⟨dateStr, base, symbolOf base q.1, q.2⟩ : Row))).filter
      (fun r' => !(sameKey r' ⟨dateStr, base, symbolOf base p1, r1⟩)))
  have h2 := List.length_filter_le
    (fun r' => !(sameKey r' (⟨dateStr, base, symbolOf base p1, r1⟩ : Row)))
    (rest.map (fun q => (⟨dateStr, base, symbolOf base q.1, q.2⟩ : Row)))
  simp only [List.length_map] at h2
  omega

/-- C10 (witness): base `"EUR"` with pairs `"EURUSD"` and `"USDEUR"` (both
deriving `"USD"`) persists fewer rows than the two attempted. -/
theorem save_rates_first_row_wins_witness :
    (save_rates [] "EUR" [("EURUSD", (6 : Rat)/5), ("USDEUR", (2 : Rat))]
      "2025-09-01").1.length <
      ([("EURUSD", (6 : Rat)/5), ("USDEUR", (2 : Rat))] :
        List (String × Rat)).length :=
  (save_rates_first_row_wins "EUR" "2025-09-01"
      [("EURUSD", (6 : Rat)/5), ("USDEUR", (2 : Rat))]).2.2
    "EURUSD" "USDEUR" ((6 : Rat)/5) 2 [] rfl (by decide)

end Fx
